import Mathlib

/-!
# Verification of the shadowsocks-go SOCKS5 engine and UDP session relay

This file gives a shallow embedding, in Lean, of the SOCKS5 protocol engine
(`socks5` package: method selection, username/password authentication, the
request/reply exchange, the prefixed reader, the error taxonomy) and of the
UDP session relay (`service` package: the `Stop` shutdown path and the
lifecycle of session goroutines), together with theorems settling the
specification's claims about them.

Bytes are modelled as `Nat` values (every byte written by the code is below
256 by construction, and where Go truncates with a `byte(...)` conversion the
embedding takes `% 256` explicitly).  A bidirectional bytestream
(`io.ReadWriter`) is modelled as a record holding the bytes still to be read,
what the stream reports once those bytes are exhausted (EOF or another I/O
error), and the bytes written so far.
-/

namespace Shadowsocks

/-- What an `io.Reader` reports once its data is exhausted: a clean EOF or
some other I/O error.  This is the only distinction the SOCKS5 engine ever
makes between read errors. -/
inductive StreamEnd where
  | eof
  | ioError
  deriving DecidableEq, Repr

/-- A bytestream peer (`io.ReadWriter`): bytes remaining to be read, the
condition reported once they run out, and the bytes written so far. -/
structure Stream where
  input : List Nat
  ending : StreamEnd
  output : List Nat
  deriving DecidableEq, Repr

/-! ## Go slice buffer primitives

The protocol engine works in a caller-supplied scratch buffer `b []byte`.
We model the buffer as a `List Nat` and Go's subslice reads and writes as
`take`/`drop` operations.  `store b i xs` models copying `xs` into
`b[i:i+len(xs)]` (the Go code only ever stores within bounds, which the
hypotheses of the theorems guarantee); `sliceB b i n` models reading
`b[i:i+n]`; `byteAt b i` models `b[i]`. -/

/-- Overwrite `b[i : i + xs.length]` with `xs`. -/
def store (b : List Nat) (i : Nat) (xs : List Nat) : List Nat :=
  b.take i ++ xs ++ b.drop (i + xs.length)

/-- Read the subslice `b[i : i + n]`. -/
def sliceB (b : List Nat) (i n : Nat) : List Nat :=
  (b.drop i).take n

/-- Read the byte `b[i]`. -/
def byteAt (b : List Nat) (i : Nat) : Nat :=
  b.getD i 0

theorem store_length {b xs : List Nat} {i : Nat} (hi : i + xs.length ≤ b.length) :
    (store b i xs).length = b.length := by
  have hib : i ≤ b.length := le_trans (Nat.le_add_right _ _) hi
  simp [store, List.length_take, List.length_drop, Nat.min_eq_left hib]
  omega

theorem sliceB_store {b xs : List Nat} {i : Nat} (hi : i ≤ b.length) :
    sliceB (store b i xs) i xs.length = xs := by
  simp [store, sliceB, List.drop_append_eq_append_drop, List.length_take,
    Nat.min_eq_left hi, List.take_append_eq_append_take]

theorem byteAt_store_lt {b xs : List Nat} {i j : Nat} (hj : j < i) (hjb : j < b.length) :
    byteAt (store b i xs) j = byteAt b j := by
  unfold byteAt store
  rw [List.getD_eq_getElem?_getD, List.getD_eq_getElem?_getD, List.append_assoc]
  rw [List.getElem?_append_left (by simp [List.length_take]; omega)]
  rw [List.getElem?_take_of_lt hj]

/-- Bytes strictly before the stored region are untouched:
slicing entirely below the store sees the original buffer. -/
theorem sliceB_store_lt {b xs : List Nat} {i j n : Nat} (h : j + n ≤ i) (hib : i ≤ b.length) :
    sliceB (store b i xs) j n = sliceB b j n := by
  unfold sliceB store
  have h1 : (b.take i).length = i := by simp [Nat.min_eq_left hib]
  rw [List.append_assoc, List.drop_append_of_le_length (by omega)]
  rw [List.take_append_of_le_length (by simp [List.length_drop, h1]; omega)]
  rw [List.drop_take, List.take_take]
  congr 1
  omega

theorem store_zero (b zs : List Nat) : store b 0 zs = zs ++ b.drop zs.length := by
  simp [store]

/-- Storing into a buffer whose prefix was just stored composes at the
list level: the handlers only ever write within the region already
written, or exactly adjacent to it. -/
theorem store_store_zero {zs : List Nat} {i : Nat} (b ys : List Nat) (hi : i ≤ zs.length) :
    store (store b 0 zs) i ys = store b 0 (store zs i ys) := by
  simp only [store_zero]
  unfold store
  rw [List.take_append_of_le_length hi, List.drop_append_eq_append_drop]
  have hslen : (List.take i zs ++ ys ++ List.drop (i + ys.length) zs).length
      = max zs.length (i + ys.length) := by
    simp [List.length_take, List.length_drop, Nat.min_eq_left hi]
    omega
  rw [hslen]
  rcases le_or_lt (i + ys.length) zs.length with h | h
  · rw [Nat.sub_eq_zero_of_le h, List.drop_zero, Nat.max_eq_left h]
    simp [List.append_assoc]
  · rw [List.drop_eq_nil_of_le (le_of_lt h), Nat.max_eq_right (le_of_lt h), List.drop_drop]
    have hadd : zs.length + (i + ys.length - zs.length) = i + ys.length := by omega
    rw [hadd]
    simp [List.append_assoc]

theorem sliceB_store_zero {zs : List Nat} {i n : Nat} (b : List Nat)
    (h : i + n ≤ zs.length) :
    sliceB (store b 0 zs) i n = sliceB zs i n := by
  rw [store_zero]
  unfold sliceB
  rw [List.drop_append_of_le_length (by omega)]
  rw [List.take_append_of_le_length (by simp [List.length_drop]; omega)]

theorem byteAt_store_zero {zs : List Nat} {i : Nat} (b : List Nat) (h : i < zs.length) :
    byteAt (store b 0 zs) i = byteAt zs i := by
  rw [store_zero]
  unfold byteAt
  rw [List.getD_eq_getElem?_getD, List.getD_eq_getElem?_getD, List.getElem?_append_left h]

/-- Go's `bytes.IndexByte`: index of the first occurrence of `c`, or `none`
(modelling `-1`) when absent. -/
def indexByte (s : List Nat) (c : Nat) : Option Nat :=
  s.findIdx? (fun x => x = c)

/-! ## Stream reads and writes -/

/-- `io.ReadFull(rw, /- n bytes -/)`: consume exactly `n` bytes from the
stream, or fail with the stream's ending condition when fewer remain. -/
def readFull (s : Stream) (n : Nat) : Except StreamEnd (List Nat × Stream) :=
  if n ≤ s.input.length then
    .ok (s.input.take n, { s with input := s.input.drop n })
  else
    .error s.ending

/-- `rw.Write(bs)`: append to the stream's transcript of written bytes. -/
def writeOut (s : Stream) (bs : List Nat) : Stream :=
  { s with output := s.output ++ bs }

/-- A single `rw.Read(b[:1])` call: yields one byte, or the ending condition
when no input remains. -/
def readOne (s : Stream) : Except StreamEnd (Nat × Stream) :=
  match s.input with
  | [] => .error s.ending
  | x :: rest => .ok (x, { s with input := rest })

/-! ## Protocol constants (socks5 package) -/

/-- SOCKS version 5. -/
def Version : Nat := 5

/-- RFC 1928 section 3 authentication methods. -/
def MethodNoAuthenticationRequired : Nat := 0
def MethodUsernamePassword : Nat := 2
def MethodNoAcceptable : Nat := 0xFF

/-- RFC 1928 section 4 request commands. -/
def CmdConnect : Nat := 1
def CmdUDPAssociate : Nat := 3

/-- RFC 1928 section 6 reply codes. -/
def ReplySucceeded : Nat := 0
def ReplyCommandNotSupported : Nat := 7

/-- RFC 1929 section 2 username/password auth version. -/
def UsernamePasswordAuthVersion : Nat := 1

/-! ## Error taxonomy

Every error value the SOCKS5 engine can produce, as one inductive type.
The four `Unsupported...Error` byte types of the source carry their byte;
the `errors.New` sentinel values are plain constructors; `ReplyError`
carries the REP byte.  `readFailure` stands for an error returned by an
underlying `io` read (`io.ReadFull` or `Read`), and the remaining
constructors model the address codec's errors and the `zerocopy`
sentinel for UDP ASSOCIATE on a non-TCP carrier. -/
inductive SocksError where
  | unsupportedVersion (v : Nat)
  | unsupportedAuthMethod (m : Nat)
  | unsupportedCommand (c : Nat)
  | unsupportedUPAuthVersion (v : Nat)
  | replyError (r : Nat)
  | noAcceptableAuthMethod
  | incorrectUsernamePassword
  | udpAssociateDone
  | zeroNMETHODS
  | zeroULEN
  | zeroPLEN
  | readFailure (e : StreamEnd)
  | unsupportedAddressType (t : Nat)
  | invalidDomainLength
  | acceptRequiresTCPConn
  | panicBufferTooSmall
  deriving DecidableEq, Repr

/-- `errors.Is(e, errors.ErrUnsupported)` evaluated over the engine's error
values.  The Go source gives `UnsupportedVersionError`,
`UnsupportedAuthMethodError`, `UnsupportedCommandError` and
`UnsupportedUsernamePasswordAuthVersionError` an `Is` method returning
`target == errors.ErrUnsupported`; no other error value of the engine has an
`Is` method or unwraps to `errors.ErrUnsupported`, so `errors.Is` reports
`false` for all of them. -/
def errorIsErrUnsupported : SocksError → Bool
  | .unsupportedVersion _ => true
  | .unsupportedAuthMethod _ => true
  | .unsupportedCommand _ => true
  | .unsupportedUPAuthVersion _ => true
  | _ => false

/-- Error values produced by the SOCKS5 engine proper (the `socks5` source
file), as opposed to the modelled I/O and address-codec failures. -/
def producedByEngine : SocksError → Prop
  | .readFailure _ => False
  | .unsupportedAddressType _ => False
  | .invalidDomainLength => False
  | .acceptRequiresTCPConn => False
  | .panicBufferTooSmall => False
  | _ => True

/-- The errors corresponding to a protocol extension the implementation
refuses: an unsupported SOCKS version, authentication method, command, or
username/password auth version. -/
def protocolExtensionRefusal : SocksError → Prop
  | .unsupportedVersion _ => True
  | .unsupportedAuthMethod _ => True
  | .unsupportedCommand _ => True
  | .unsupportedUPAuthVersion _ => True
  | _ => False

/-! ## UserInfo and the client-side auth message -/

/-- `UserInfo`: a username/password pair.  Go strings are byte strings, so
both fields are byte lists. -/
structure UserInfo where
  username : List Nat
  password : List Nat
  deriving DecidableEq, Repr

/-- `UserInfo.AppendAuthMsg`: append
`{1, ULEN, UNAME, PLEN, PASSWD}` to `b`.  The `byte(len(...))` conversions
of the source truncate modulo 256. -/
def AppendAuthMsg (u : UserInfo) (b : List Nat) : List Nat :=
  b ++ UsernamePasswordAuthVersion :: (u.username.length % 256) :: u.username
    ++ (u.password.length % 256) :: u.password

/-- Go map lookup `userInfoByUsername[string(uname)]` over an association
list of credentials. -/
def lookupUser (tbl : List (List Nat × UserInfo)) (k : List Nat) : Option UserInfo :=
  (tbl.find? (fun e => e.1 = k)).map (·.2)

/-! ## serverHandleMethodSelection -/

/-- Result of a server-side handler: the error surfaced (`none` on success),
the stream afterwards, and the scratch buffer afterwards. -/
structure HandlerOut where
  err : Option SocksError
  stream : Stream
  buf : List Nat
  deriving DecidableEq, Repr

/-- `serverHandleMethodSelection(rw, b, method)`: read
`VER NMETHODS METHODS...`, search for `method`, and reply `{5, method}`, or
`{5, 0xFF}` with `ErrNoAcceptableAuthMethod` when absent.  Reads and writes
go through the scratch buffer exactly as in the source; the `len(b) < 1+1+255`
panic guard is modelled by `panicBufferTooSmall`. -/
def serverHandleMethodSelection (st : Stream) (b : List Nat) (method : Nat) : HandlerOut :=
  if b.length < 1 + 1 + 255 then ⟨some .panicBufferTooSmall, st, b⟩ else
  -- Read VER, NMETHODS, and the first METHOD.
  match readFull st 3 with
  | .error e => ⟨some (.readFailure e), st, b⟩
  | .ok (hd, st1) =>
    let b1 := store b 0 hd
    -- Check VER.
    if byteAt b1 0 ≠ Version then ⟨some (.unsupportedVersion (byteAt b1 0)), st1, b1⟩ else
    -- Check NMETHODS and read the remaining METHODS.
    let nmethods := byteAt b1 1
    if nmethods = 0 then ⟨some .zeroNMETHODS, st1, b1⟩
    else if nmethods = 1 then
      let methodIndex : Option Nat := if byteAt b1 2 ≠ method then none else some 0
      methodSelectionReply st1 b1 method methodIndex
    else
      match readFull st1 (nmethods - 1) with
      | .error e => ⟨some (.readFailure e), st1, b1⟩
      | .ok (ms, st2) =>
        let b2 := store b1 3 ms
        let methodIndex := indexByte (sliceB b2 2 nmethods) method
        methodSelectionReply st2 b2 method methodIndex
where
  /-- The shared tail of `serverHandleMethodSelection`: reply `{5, 0xFF}`
  and fail when no acceptable method was found, else reply `{5, method}`. -/
  methodSelectionReply (st : Stream) (b : List Nat) (method : Nat)
      (methodIndex : Option Nat) : HandlerOut :=
    match methodIndex with
    | none =>
      -- b[0] is already Version.
      let b' := store b 1 [MethodNoAcceptable]
      ⟨some .noAcceptableAuthMethod, writeOut st (sliceB b' 0 2), b'⟩
    | some _ =>
      -- b[0] is already Version.
      let b' := store b 1 [method]
      ⟨none, writeOut st (sliceB b' 0 2), b'⟩

/-! ## serverHandleUsernamePassword -/

instance {ε α : Type} [DecidableEq ε] [DecidableEq α] : DecidableEq (Except ε α) :=
  fun a b =>
    match a, b with
    | .error e, .error e' => decidable_of_iff (e = e') (by simp)
    | .ok x, .ok y => decidable_of_iff (x = y) (by simp)
    | .error _, .ok _ => isFalse (by simp)
    | .ok _, .error _ => isFalse (by simp)

/-- Result of the username/password handler: either the authenticated
username or the surfaced error, plus the stream and buffer afterwards. -/
structure AuthOut where
  result : Except SocksError (List Nat)
  stream : Stream
  buf : List Nat
  deriving DecidableEq, Repr

/-- `serverHandleUsernamePassword(rw, b, userInfoByUsername)`: read
`VER ULEN UNAME PLEN PASSWD`, reading PASSWD into the buffer region that
aliases UNAME (UNAME is resolved against the credentials table before the
overwrite), write `{1, STATUS}`, and fail with
`ErrIncorrectUsernamePassword` when STATUS ≠ 0. -/
def serverHandleUsernamePassword (st : Stream) (b : List Nat)
    (tbl : List (List Nat × UserInfo)) : AuthOut :=
  if b.length < 1 + 1 + 255 + 1 then ⟨.error .panicBufferTooSmall, st, b⟩ else
  -- Read VER, ULEN, and 2 more bytes.
  match readFull st 4 with
  | .error e => ⟨.error (.readFailure e), st, b⟩
  | .ok (hd, st1) =>
    let b1 := store b 0 hd
    -- Check VER.
    if byteAt b1 0 ≠ UsernamePasswordAuthVersion then
      ⟨.error (.unsupportedUPAuthVersion (byteAt b1 0)), st1, b1⟩
    else
    -- Check ULEN.
    let ulen := byteAt b1 1
    if ulen = 0 then ⟨.error .zeroULEN, st1, b1⟩ else
    -- Read the remaining UNAME, PLEN.
    match (if 1 < ulen then readFull st1 (ulen - 1) else .ok ([], st1)) with
    | .error e => ⟨.error (.readFailure e), st1, b1⟩
    | .ok (rest, st2) =>
      let b2 := if 1 < ulen then store b1 4 rest else b1
      let plenIndex := 2 + ulen
      -- Check UNAME.
      let uname := sliceB b2 2 ulen
      let userInfo? := lookupUser tbl uname
      -- Check PLEN.
      let plen := byteAt b2 plenIndex
      if plen = 0 then ⟨.error .zeroPLEN, st2, b2⟩ else
      -- Read PASSWD, overwriting UNAME.
      match readFull st2 plen with
      | .error e => ⟨.error (.readFailure e), st2, b2⟩
      | .ok (pw, st3) =>
        let b3 := store b2 2 pw
        let passwd := sliceB b3 2 plen
        -- Check PASSWD and put STATUS.
        let status : Nat :=
          match userInfo? with
          | none => 1
          | some userInfo => if passwd ≠ userInfo.password then 1 else 0
        -- Write response; b[0] is already Version.
        let b4 := store b3 1 [status]
        let st4 := writeOut st3 (sliceB b4 0 2)
        if status ≠ 0 then ⟨.error .incorrectUsernamePassword, st4, b4⟩
        else ⟨.ok ((userInfo?.getD ⟨[], []⟩).username), st4, b4⟩

/-! ## The prefixed reader -/

/-- `prefixedReader`: an `io.Reader` that reads from a prefix buffer first,
then from an underlying reader.  The underlying reader is a finite
bytestream with an ending condition, as in `Stream`. -/
structure PrefixedReader where
  pfx : List Nat
  input : List Nat
  ending : StreamEnd
  deriving DecidableEq, Repr

/-- `prefixedReader.Read(p)` with `len(p) = plen`: when the prefix has any
bytes, copy from the prefix (`n = copy(p, r.pfx)`, so
`n = min plen (len prefix)`) and advance it, never touching the underlying
reader; otherwise delegate to the underlying reader, which yields up to
`plen` of its remaining bytes or its ending condition. -/
def prefixedReaderRead (r : PrefixedReader) (plen : Nat) :
    Except StreamEnd (List Nat × PrefixedReader) :=
  if r.pfx ≠ [] then
    let n := min plen r.pfx.length
    .ok (r.pfx.take n, { r with pfx := r.pfx.drop n })
  else
    match r.input with
    | [] => .error r.ending
    | _ => .ok (r.input.take plen, { r with input := r.input.drop plen })

/-- `io.ReadFull` over a `prefixedReader`: call `Read` repeatedly until `k`
bytes have accumulated.  The fuel argument bounds the number of calls; since
every successful call yields at least one byte, `k` calls always suffice. -/
def prefixedReadFullAux : Nat → PrefixedReader → Nat → Except StreamEnd (List Nat × PrefixedReader)
  | _, r, 0 => .ok ([], r)
  | 0, _, _ + 1 => .error .ioError
  | fuel + 1, r, k + 1 =>
    match prefixedReaderRead r (k + 1) with
    | .error e => .error e
    | .ok (bs, r') =>
      match prefixedReadFullAux fuel r' (k + 1 - bs.length) with
      | .error e => .error e
      | .ok (bs2, r'') => .ok (bs ++ bs2, r'')

/-- `io.ReadFull(prefixedReader, /- n bytes -/)`. -/
def prefixedReadFull (r : PrefixedReader) (n : Nat) :
    Except StreamEnd (List Nat × PrefixedReader) :=
  prefixedReadFullAux n r n

/-! ## Address codec (modelled from the spec)

The address codec (`AppendFromReader`, `ConnAddrFromSlice`,
`AppendAddrFromAddrPort`, `MaxAddrLen`, `IPv4AddrLen`,
`IPv4UnspecifiedAddr`) lives outside the given source files; the
definitions below follow section 4.1 of the specification: the wire layout
is `ATYP(1) | ADDR | PORT(2, big-endian)` with ATYP 1 = IPv4 (4 address
bytes), 3 = Domain (`LEN(1) | BYTES(LEN)`), 4 = IPv6 (16 address bytes). -/

/-- A host-level IP address. -/
inductive IPAddr where
  | v4 (a b c d : Nat)
  | v6 (bytes : List Nat)
  deriving DecidableEq, Repr

/-- An IP address and port (`netip.AddrPort`). -/
structure AddrPort where
  ip : IPAddr
  port : Nat
  deriving DecidableEq, Repr

/-- `conn.Addr`: either an IP endpoint or a domain name with a port. -/
inductive ConnAddr where
  | ip (ap : AddrPort)
  | domain (host : List Nat) (port : Nat)
  deriving DecidableEq, Repr

/-- Modelled from the spec: `MaxAddrLen`, the worst case — domain form with
a 255-byte host plus the type, length and port bytes. -/
def MaxAddrLen : Nat := 1 + 1 + 255 + 2

/-- Modelled from the spec: `IPv4AddrLen`, the IPv4 form
(type byte, 4 address bytes, 2 port bytes). -/
def IPv4AddrLen : Nat := 1 + 4 + 2

/-- Modelled from the spec: `IPv4UnspecifiedAddr`, the SOCKS address bytes
of `0.0.0.0:0` — the canonical placeholder in replies. -/
def IPv4UnspecifiedAddr : List Nat := [1, 0, 0, 0, 0, 0, 0]

/-- Modelled from the spec: `AppendAddrFromAddrPort` appends the SOCKS
address of an IP endpoint to `b` (ATYP, address bytes, port big-endian). -/
def AppendAddrFromAddrPort (b : List Nat) (ap : AddrPort) : List Nat :=
  match ap.ip with
  | .v4 x y z w => b ++ [1, x, y, z, w, ap.port / 256 % 256, ap.port % 256]
  | .v6 bs => b ++ 4 :: bs ++ [ap.port / 256 % 256, ap.port % 256]

/-- Modelled from the spec: `AppendFromReader(b, r)` reads the minimum bytes
from `r` to complete one SOCKS address and appends everything read to `b`.
It fails with `unsupported-address-type` on an unknown ATYP,
`invalid-domain-length` when the domain LEN byte is 0, and a read failure
when the reader ends early. -/
def AppendFromReader (b : List Nat) (r : PrefixedReader) :
    Except SocksError (List Nat × PrefixedReader) :=
  match prefixedReadFull r 1 with
  | .error e => .error (.readFailure e)
  | .ok (atypBytes, r1) =>
    match atypBytes with
    | [atyp] =>
      if atyp = 1 then
        match prefixedReadFull r1 (4 + 2) with
        | .error e => .error (.readFailure e)
        | .ok (rest, r2) => .ok (b ++ atyp :: rest, r2)
      else if atyp = 4 then
        match prefixedReadFull r1 (16 + 2) with
        | .error e => .error (.readFailure e)
        | .ok (rest, r2) => .ok (b ++ atyp :: rest, r2)
      else if atyp = 3 then
        match prefixedReadFull r1 1 with
        | .error e => .error (.readFailure e)
        | .ok (lenBytes, r2) =>
          match lenBytes with
          | [len] =>
            if len = 0 then .error .invalidDomainLength
            else
              match prefixedReadFull r2 (len + 2) with
              | .error e => .error (.readFailure e)
              | .ok (rest, r3) => .ok (b ++ atyp :: len :: rest, r3)
          | _ => .error (.readFailure .ioError)
      else .error (.unsupportedAddressType atyp)
    | _ => .error (.readFailure .ioError)

/-- Modelled from the spec: `ConnAddrFromSlice` parses a completed SOCKS
address into a `ConnAddr` and the number of bytes consumed. -/
def ConnAddrFromSlice (sa : List Nat) : Except SocksError (ConnAddr × Nat) :=
  match sa with
  | 1 :: x :: y :: z :: w :: ph :: pl :: _ =>
    .ok (.ip ⟨.v4 x y z w, ph * 256 + pl⟩, 7)
  | 3 :: len :: rest =>
    if len = 0 then .error .invalidDomainLength
    else if rest.length < len + 2 then .error (.readFailure .ioError)
    else
      .ok (.domain (rest.take len) (byteAt rest len * 256 + byteAt rest (len + 1)),
        2 + len + 2)
  | 4 :: rest =>
    if rest.length < 16 + 2 then .error (.readFailure .ioError)
    else .ok (.ip ⟨.v6 (rest.take 16), byteAt rest 16 * 256 + byteAt rest 17⟩, 19)
  | atyp :: _ => .error (.unsupportedAddressType atyp)
  | [] => .error (.readFailure .ioError)

/-! ## serverHandleRequest -/

/-- The carrier of a server request: a bytestream that, when it is a
`*net.TCPConn`, also exposes its local TCP endpoint. -/
structure TCPStream where
  stream : Stream
  localAddr : Option AddrPort
  deriving DecidableEq, Repr

/-- Result of `serverHandleRequest`: the decoded target address (`none`
models the zero `conn.Addr{}`), the surfaced error, the stream and the
scratch buffer afterwards. -/
structure RequestOut where
  addr : Option ConnAddr
  err : Option SocksError
  stream : Stream
  buf : List Nat
  deriving DecidableEq, Repr

/-- `replyWithStatus(w, b, status)`: write
`{5, status, 0, IPv4UnspecifiedAddr}` through the scratch buffer. -/
def replyWithStatus (st : Stream) (b : List Nat) (status : Nat) : Stream × List Nat :=
  let b' := store b 0 ([Version, status, 0] ++ IPv4UnspecifiedAddr)
  (writeOut st (sliceB b' 0 (3 + IPv4AddrLen)), b')

/-- `serverHandleRequest(rw, b, enableTCP, enableUDP)`: read
`VER CMD RSV ATYP` plus one extra byte, parse the SOCKS address through a
prefixed reader holding the two bytes already consumed, then dispatch on
CMD.  CONNECT (when TCP is enabled) replies with the unspecified IPv4
address; UDP ASSOCIATE (when UDP is enabled) requires a TCP carrier,
replies with the carrier's local endpoint, performs one blocking one-byte
read to hold the connection open, and surfaces `ErrUDPAssociateDone` when
that read returns normally or with EOF — any other read error is returned
as-is.  Every other command gets a `command-not-supported` reply. -/
def serverHandleRequest (tc : TCPStream) (b : List Nat) (enableTCP enableUDP : Bool) :
    RequestOut :=
  let st := tc.stream
  if b.length < 3 + MaxAddrLen then ⟨none, some .panicBufferTooSmall, st, b⟩ else
  -- Read VER, CMD, RSV, ATYP, and an extra byte.
  match readFull st 5 with
  | .error e => ⟨none, some (.readFailure e), st, b⟩
  | .ok (hd, st1) =>
    let b1 := store b 0 hd
    -- Check VER.
    if byteAt b1 0 ≠ Version then ⟨none, some (.unsupportedVersion (byteAt b1 0)), st1, b1⟩ else
    -- Read SOCKS address through a prefixed reader over b[3:5].
    match AppendFromReader [] ⟨sliceB b1 3 2, st1.input, st1.ending⟩ with
    | .error e => ⟨none, some e, st1, b1⟩
    | .ok (sa, r') =>
      let st2 : Stream := ⟨r'.input, r'.ending, st1.output⟩
      match ConnAddrFromSlice sa with
      | .error e => ⟨none, some e, st2, b1⟩
      | .ok (addr, _) =>
        let cmd := byteAt b1 1
        if cmd = CmdConnect ∧ enableTCP then
          let (st3, b2) := replyWithStatus st2 b1 ReplySucceeded
          ⟨some addr, none, st3, b2⟩
        else if cmd = CmdUDPAssociate ∧ enableUDP then
          -- Use the connection's local address as the returned UDP bound address.
          match tc.localAddr with
          | none => ⟨some addr, some .acceptRequiresTCPConn, st2, b1⟩
          | some localAddrPort =>
            -- Construct reply: b[1] = ReplySucceeded, then append the
            -- SOCKS address of the local endpoint to b[:3].
            let b2 := store b1 1 [ReplySucceeded]
            let reply := AppendAddrFromAddrPort (sliceB b2 0 3) localAddrPort
            let st3 := writeOut st2 reply
            -- Hold the connection open.
            match readOne st3 with
            | .error .eof => ⟨some addr, some .udpAssociateDone, st3, b2⟩
            | .error e => ⟨some addr, some (.readFailure e), st3, b2⟩
            | .ok (x, st4) => ⟨some addr, some .udpAssociateDone, st4, store b2 0 [x]⟩
        else
          let (st3, b2) := replyWithStatus st2 b1 ReplyCommandNotSupported
          ⟨some addr, some (.unsupportedCommand cmd), st3, b2⟩

/-! ## UDP session relay: the `Stop` method (sequential projection)

`UDPSessionRelay.Stop` is embedded as a function on a snapshot of the relay
value that also emits the ordered list of externally visible actions it
performs (deadline updates, lock operations, waits, closes).  This captures
the frame of the method: which fields it touches and which side effects it
issues, in order. -/

/-- The three observable values of a session's atomic `state` cell. -/
inductive StateCell where
  | nil
  | natConn
  | shutdownSentinel
  deriving DecidableEq, Repr

/-- Snapshot of one session record, as far as `Stop` observes it. -/
structure SessionSnap where
  state : StateCell
  deriving DecidableEq, Repr

/-- Snapshot of the relay value, as far as `Stop` observes it. -/
structure RelaySnap where
  serverConn : Option Nat
  table : List (Nat × SessionSnap)
  deriving DecidableEq, Repr

/-- The externally visible actions `Stop` can perform, in order. -/
inductive StopEffect where
  | setServerConnReadDeadline
  | waitIngress
  | lockTable
  | swapSessionState (csid : Nat)
  | setNatConnReadDeadline (csid : Nat)
  | unlockTable
  | waitWorkers
  | closeServerConn
  deriving DecidableEq, Repr

/-- `UDPSessionRelay.Stop`: when `Start` was never called
(`s.serverConn == nil`) return `nil` immediately, touching nothing.
Otherwise: set the listener's read deadline, wait for the ingress
goroutine, and under the table lock swap the shutdown sentinel into every
session's state cell — deadlining the nat socket of each session whose
swapped-out value was non-nil — then wait for the session workers and close
the listener.  The returned `Option Nat` is the error value (`none` = nil);
deadline and close calls are modelled as succeeding. -/
def relayStop (r : RelaySnap) : Option Nat × RelaySnap × List StopEffect :=
  match r.serverConn with
  | none => (none, r, [])
  | some _ =>
    let perSession := r.table.flatMap fun e =>
      if e.2.state = .nil then [StopEffect.swapSessionState e.1]
      else [StopEffect.swapSessionState e.1, StopEffect.setNatConnReadDeadline e.1]
    let table' := r.table.map fun e => (e.1, SessionSnap.mk .shutdownSentinel)
    (none, { r with table := table' },
      [StopEffect.setServerConnReadDeadline, StopEffect.waitIngress, StopEffect.lockTable]
        ++ perSession
        ++ [StopEffect.unlockTable, StopEffect.waitWorkers, StopEffect.closeServerConn])

/-! ## UDP session relay: concurrent lifecycle

A small transition system over the interleavings of the ingress loop, the
per-session goroutines and `Stop`, faithful to the control skeleton of
`recvFromServerConnGeneric` and `Stop`:

* the ingress loop, while running, inserts a table entry and spawns a
  session goroutine for each unknown client session ID, and exits once the
  listener deadline has been set;
* a session goroutine first calls the router (`preRouter`); on success it
  enters the relay waitgroup (`s.wg.Add(1)`, phase `tracked`); on failure
  it is never tracked (`failedPending`).  Because `defer s.wg.Done()` is
  registered *after* the teardown defer, `wg.Done` runs *before* the
  teardown: a finished worker first leaves the waitgroup (`donePending`)
  and only then runs the deferred teardown that closes its channel and
  deletes its table entry (`exited`);
* `Stop` sets the listener deadline, waits for the ingress waitgroup, swaps
  the shutdown sentinel into every session state, waits for the relay
  waitgroup (no `tracked` session), and returns after closing the listener.
-/

/-- Lifecycle phase of one session goroutine. -/
inductive GPhase where
  | preRouter
  | tracked
  | donePending
  | failedPending
  | exited
  deriving DecidableEq, Repr

/-- One session goroutine: its client session ID and phase. -/
structure GoSt where
  csid : Nat
  phase : GPhase
  deriving DecidableEq, Repr

/-- Progress of the `Stop` call. -/
inductive StopPh where
  | idle
  | deadlineSet
  | ingressWaited
  | swapped
  | workersWaited
  | returned
  deriving DecidableEq, Repr

/-- Global state of one relay run: whether the ingress loop is still
running, the spawned session goroutines (indexed by spawn order), the
session table as `(csid, goroutine index)` pairs, and `Stop`'s progress. -/
structure RelayRun where
  ingressActive : Bool
  sessions : List GoSt
  table : List (Nat × Nat)
  stop : StopPh
  deriving DecidableEq, Repr

/-- The initial state: ingress running, no sessions, empty table. -/
def relayInit : RelayRun := ⟨true, [], [], .idle⟩

/-- Whether the listener read deadline has been set by `Stop`. -/
def StopPh.deadlineIsSet : StopPh → Bool
  | .idle => false
  | _ => true

/-- Go's `delete(s.table, csid)`. -/
def tableDelete (t : List (Nat × Nat)) (csid : Nat) : List (Nat × Nat) :=
  t.filter fun e => e.1 ≠ csid

/-- Go's `_, ok := s.table[csid]`. -/
def tableHas (t : List (Nat × Nat)) (csid : Nat) : Bool :=
  t.any fun e => e.1 = csid

/-- Set the phase of goroutine `g`. -/
def setPhase (l : List GoSt) (g : Nat) (ph : GPhase) : List GoSt :=
  l.modify (fun gs => { gs with phase := ph }) g

/-- The interleaved events of a relay run. -/
inductive RAct where
  /-- Ingress handles a datagram of an unknown session ID: inserts the
  table entry and spawns the session goroutine (both under the lock). -/
  | spawn (csid : Nat)
  /-- The router call succeeds; the goroutine enters `s.wg`. -/
  | routerOk (gid : Nat)
  /-- The router call fails; the goroutine heads to teardown untracked. -/
  | routerFail (gid : Nat)
  /-- The relay workers finish and the deferred `s.wg.Done()` runs. -/
  | workerDone (gid : Nat)
  /-- The deferred teardown runs: close the send channel and delete the
  table entry under the lock. -/
  | teardown (gid : Nat)
  /-- The ingress loop observes the deadline and exits (`s.mwg.Done()`). -/
  | ingressExit
  /-- `Stop` sets the listener read deadline. -/
  | stopDeadline
  /-- `Stop`'s `s.mwg.Wait()` returns (ingress has exited). -/
  | stopWaitIngress
  /-- `Stop` swaps the shutdown sentinel into every session state. -/
  | stopSwap
  /-- `Stop`'s `s.wg.Wait()` returns (no tracked session). -/
  | stopWaitWorkers
  /-- `Stop` closes the listener and returns. -/
  | stopReturn
  deriving DecidableEq, Repr

/-- One step of the relay transition system: `none` when the event is not
enabled in the given state. -/
def stepR (a : RAct) (st : RelayRun) : Option RelayRun :=
  match a with
  | .spawn csid =>
    if st.ingressActive ∧ tableHas st.table csid = false then
      some { st with
        sessions := st.sessions ++ [⟨csid, .preRouter⟩],
        table := st.table ++ [(csid, st.sessions.length)] }
    else none
  | .routerOk gid =>
    match st.sessions[gid]? with
    | some gs => if gs.phase = .preRouter then
        some { st with sessions := setPhase st.sessions gid .tracked } else none
    | none => none
  | .routerFail gid =>
    match st.sessions[gid]? with
    | some gs => if gs.phase = .preRouter then
        some { st with sessions := setPhase st.sessions gid .failedPending } else none
    | none => none
  | .workerDone gid =>
    match st.sessions[gid]? with
    | some gs => if gs.phase = .tracked then
        some { st with sessions := setPhase st.sessions gid .donePending } else none
    | none => none
  | .teardown gid =>
    match st.sessions[gid]? with
    | some gs =>
      if gs.phase = .donePending ∨ gs.phase = .failedPending then
        some { st with
          sessions := setPhase st.sessions gid .exited,
          table := tableDelete st.table gs.csid }
      else none
    | none => none
  | .ingressExit =>
    if st.ingressActive ∧ st.stop.deadlineIsSet then
      some { st with ingressActive := false } else none
  | .stopDeadline =>
    if st.stop = .idle then some { st with stop := .deadlineSet } else none
  | .stopWaitIngress =>
    if st.stop = .deadlineSet ∧ st.ingressActive = false then
      some { st with stop := .ingressWaited } else none
  | .stopSwap =>
    if st.stop = .ingressWaited then some { st with stop := .swapped } else none
  | .stopWaitWorkers =>
    if st.stop = .swapped ∧ st.sessions.all (fun gs => gs.phase ≠ .tracked) then
      some { st with stop := .workersWaited } else none
  | .stopReturn =>
    if st.stop = .workersWaited then some { st with stop := .returned } else none

/-- Run a sequence of events from a state; `none` when some event is not
enabled. -/
def runRelay : List RAct → RelayRun → Option RelayRun
  | [], st => some st
  | a :: rest, st =>
    match stepR a st with
    | none => none
    | some st' => runRelay rest st'

/-! ## Supporting list lemmas for the handler proofs -/

theorem indexByte_append_self {l : List Nat} {c : Nat} (h : c ∉ l) :
    indexByte (l ++ [c]) c = some l.length := by
  induction l with
  | nil => simp [indexByte, List.findIdx?]
  | cons a t ih =>
    simp only [List.mem_cons, not_or] at h
    simp only [indexByte, List.cons_append, List.findIdx?_cons]
    rw [if_neg (by simp [Ne.symm h.1])]
    have h2 := ih h.2
    simp only [indexByte] at h2
    simp [h2]

theorem byteAt_append_cons (xs ys : List Nat) (y : Nat) :
    byteAt (xs ++ y :: ys) xs.length = y := by
  unfold byteAt
  rw [List.getD_eq_getElem?_getD, List.getElem?_append_right (le_refl _)]
  simp

/-! ## Theorems settling the claims -/

/-- **C7.** For a method-selection message with valid version byte 5 and
NMETHODS = 0, `serverHandleMethodSelection` returns the zero-nmethods
failure without writing any bytes to the stream. -/
theorem methodSelection_zero_nmethods_no_reply (st : Stream) (b : List Nat)
    (method x : Nat) (rest : List Nat)
    (hb : 257 ≤ b.length) (hin : st.input = 5 :: 0 :: x :: rest) :
    (serverHandleMethodSelection st b method).err = some .zeroNMETHODS ∧
    (serverHandleMethodSelection st b method).stream.output = st.output := by
  have h0 : byteAt (store b 0 [5, 0, x]) 0 = 5 := by
    rw [byteAt_store_zero b (by simp)]; rfl
  have h1 : byteAt (store b 0 [5, 0, x]) 1 = 0 := by
    rw [byteAt_store_zero b (by simp)]; rfl
  simp [serverHandleMethodSelection, readFull, hin, Version, h0, h1, Nat.not_lt.mpr hb]

set_option maxRecDepth 10000 in
/-- Witness for C7 at a concrete input. -/
theorem methodSelection_zero_nmethods_no_reply_witness :
    (serverHandleMethodSelection ⟨[5, 0, 9], .eof, []⟩ (List.replicate 257 0) 0).err
        = some .zeroNMETHODS ∧
    (serverHandleMethodSelection ⟨[5, 0, 9], .eof, []⟩ (List.replicate 257 0) 0).stream.output
        = [] :=
  methodSelection_zero_nmethods_no_reply ⟨[5, 0, 9], .eof, []⟩ (List.replicate 257 0) 0 9 []
    (by simp) rfl

/-- **C6.** For a method-selection message with NMETHODS = 255 whose
acceptable method appears only at position 254 (the last method byte),
`serverHandleMethodSelection` reads the remaining 254 method bytes
(leaving exactly the bytes after them unread), finds the method, and
writes the selection reply `{5, method}` without error. -/
theorem methodSelection_255_methods_last_position (st : Stream) (b : List Nat)
    (method p0 : Nat) (ptail rest : List Nat)
    (hb : 257 ≤ b.length) (hpt : ptail.length = 253)
    (hnot : method ∉ p0 :: ptail)
    (hin : st.input = 5 :: 255 :: p0 :: (ptail ++ [method] ++ rest)) :
    (serverHandleMethodSelection st b method).err = none ∧
    (serverHandleMethodSelection st b method).stream.output = st.output ++ [5, method] ∧
    (serverHandleMethodSelection st b method).stream.input = rest := by
  have h0 : byteAt (store b 0 [5, 255, p0]) 0 = 5 := by
    rw [byteAt_store_zero b (by simp)]; rfl
  have h1 : byteAt (store b 0 [5, 255, p0]) 1 = 255 := by
    rw [byteAt_store_zero b (by simp)]; rfl
  have hcond : (254 ≤ ptail.length + (rest.length + 1)) = True :=
    eq_true (by omega)
  have htk : List.take 254 (ptail ++ method :: rest) = ptail ++ [method] := by
    rw [List.take_append_eq_append_take, List.take_of_length_le (by omega), hpt]
    simp
  have hdr : List.drop 254 (ptail ++ method :: rest) = rest := by
    rw [List.drop_append_eq_append_drop]
    rw [List.drop_eq_nil_of_le (by omega), hpt]
    simp
  have hb2 : store (store b 0 [5, 255, p0]) 3 (ptail ++ [method])
      = store b 0 (5 :: 255 :: p0 :: (ptail ++ [method])) := by
    rw [store_store_zero b _ (by simp)]
    congr 1
    simp [store]
  have hslice : sliceB (store b 0 (5 :: 255 :: p0 :: (ptail ++ [method]))) 2 255
      = p0 :: (ptail ++ [method]) := by
    rw [sliceB_store_zero b (by simp [hpt])]
    simp [sliceB, List.take_append_eq_append_take, hpt]
  have hidx : indexByte (p0 :: (ptail ++ [method])) method = some 254 := by
    have h := indexByte_append_self (l := p0 :: ptail) (c := method) hnot
    simpa [hpt] using h
  have hb3 : store (store b 0 (5 :: 255 :: p0 :: (ptail ++ [method]))) 1 [method]
      = store b 0 (5 :: method :: p0 :: (ptail ++ [method])) := by
    rw [store_store_zero b _ (by simp)]
    congr 1
  have hout : sliceB (store b 0 (5 :: method :: p0 :: (ptail ++ [method]))) 0 2
      = [5, method] := by
    rw [sliceB_store_zero b (by simp)]
    simp [sliceB]
  simp [serverHandleMethodSelection, readFull, hin, Version, h0, h1,
    Nat.not_lt.mpr hb, hcond, htk, hdr, hb2, hslice, hidx, hb3, hout,
    serverHandleMethodSelection.methodSelectionReply, writeOut]

set_option maxRecDepth 10000 in
/-- Witness for C6 at a concrete input: 254 copies of method 7 followed by
method 0 in last position. -/
theorem methodSelection_255_methods_last_position_witness :
    (serverHandleMethodSelection
        ⟨5 :: 255 :: 7 :: (List.replicate 253 7 ++ [0] ++ []), .eof, []⟩
        (List.replicate 257 0) 0).err = none ∧
    (serverHandleMethodSelection
        ⟨5 :: 255 :: 7 :: (List.replicate 253 7 ++ [0] ++ []), .eof, []⟩
        (List.replicate 257 0) 0).stream.output = [] ++ [5, 0] ∧
    (serverHandleMethodSelection
        ⟨5 :: 255 :: 7 :: (List.replicate 253 7 ++ [0] ++ []), .eof, []⟩
        (List.replicate 257 0) 0).stream.input = [] :=
  methodSelection_255_methods_last_position
    ⟨5 :: 255 :: 7 :: (List.replicate 253 7 ++ [0] ++ []), .eof, []⟩
    (List.replicate 257 0) 0 7 (List.replicate 253 7) []
    (by simp) (by simp) (by simp [List.mem_replicate]) rfl

theorem take_min_length (l : List Nat) (n : Nat) : l.take (min n l.length) = l.take n := by
  rcases le_or_lt n l.length with h | h
  · rw [Nat.min_eq_left h]
  · rw [Nat.min_eq_right (le_of_lt h), List.take_of_length_le (le_refl _),
      List.take_of_length_le (le_of_lt h)]

/-- **C8.** For every prefixed reader whose prefix slice is non-empty, a
`Read` call returns only bytes copied from the prefix — exactly
`prefix.take plen`, which has `min plen (len prefix)` bytes — and leaves
the underlying reader untouched; only once the prefix is fully drained are
reads delegated to the underlying reader, so no single `Read` ever mixes
prefix bytes with underlying-reader bytes. -/
theorem prefixedReader_drains_prefix_before_delegating (r : PrefixedReader) (plen : Nat) :
    (r.pfx ≠ [] →
      prefixedReaderRead r plen
          = .ok (r.pfx.take plen, ⟨r.pfx.drop (min plen r.pfx.length), r.input, r.ending⟩) ∧
      (r.pfx.take plen).length = min plen r.pfx.length) ∧
    (r.pfx = [] →
      (r.input = [] → prefixedReaderRead r plen = .error r.ending) ∧
      (r.input ≠ [] →
        prefixedReaderRead r plen = .ok (r.input.take plen, ⟨[], r.input.drop plen, r.ending⟩))) := by
  refine ⟨fun hne => ?_, fun hemp => ⟨fun hie => ?_, fun hine => ?_⟩⟩
  · rw [prefixedReaderRead, if_pos hne]
    refine ⟨?_, by simp [List.length_take]⟩
    show Except.ok (r.pfx.take (min plen r.pfx.length),
      PrefixedReader.mk (r.pfx.drop (min plen r.pfx.length)) r.input r.ending) = _
    rw [take_min_length]
  · rw [prefixedReaderRead, if_neg (by simp [hemp])]
    simp only [hie]
  · rw [prefixedReaderRead, if_neg (by simp [hemp])]
    cases hr : r.input with
    | nil => exact absurd hr hine
    | cons x xs =>
      simp only [← hr]
      cases r
      simp_all [hemp]

/-- Witness for C8 at a concrete reader. -/
theorem prefixedReader_drains_prefix_before_delegating_witness :
    prefixedReaderRead ⟨[7, 8], [9], .eof⟩ 1
        = .ok ([7], ⟨[8], [9], .eof⟩) ∧ ([7] : List Nat).length = 1 := by
  have h := (prefixedReader_drains_prefix_before_delegating ⟨[7, 8], [9], .eof⟩ 1).1
    (by decide)
  exact ⟨by simpa using h.1, rfl⟩

/-- **C9.** An error value produced by the SOCKS5 engine matches
`errors.ErrUnsupported` if and only if it is one of the four protocol
extension refusals (unsupported version, auth method, command, or
username/password auth version); no other engine error matches. -/
theorem errUnsupported_iff_protocol_refusal (e : SocksError) (he : producedByEngine e) :
    errorIsErrUnsupported e = true ↔ protocolExtensionRefusal e := by
  cases e <;> simp [errorIsErrUnsupported, protocolExtensionRefusal, producedByEngine] at he ⊢

/-- Witness for C9 at concrete errors: `udp-associate-done` does not match
`errors.ErrUnsupported`, while an unsupported command does. -/
theorem errUnsupported_iff_protocol_refusal_witness :
    (errorIsErrUnsupported .udpAssociateDone = true ↔
      protocolExtensionRefusal .udpAssociateDone) ∧
    (errorIsErrUnsupported (.unsupportedCommand 2) = true ↔
      protocolExtensionRefusal (.unsupportedCommand 2)) :=
  ⟨errUnsupported_iff_protocol_refusal .udpAssociateDone trivial,
   errUnsupported_iff_protocol_refusal (.unsupportedCommand 2) trivial⟩

/-- **C10.** Calling `Stop` on a relay on which `Start` was never called
(`serverConn` is nil) returns nil and performs no action: no effects are
emitted (no deadline set, no lock taken, nothing closed) and the relay
value, its session table included, is unchanged. -/
theorem relayStop_without_start_is_noop (r : RelaySnap) (h : r.serverConn = none) :
    relayStop r = (none, r, []) := by
  simp [relayStop, h]

/-- Witness for C10 at a concrete relay snapshot. -/
theorem relayStop_without_start_is_noop_witness :
    relayStop ⟨none, [(3, ⟨.natConn⟩)]⟩ = (none, ⟨none, [(3, ⟨.natConn⟩)]⟩, []) :=
  relayStop_without_start_is_noop ⟨none, [(3, ⟨.natConn⟩)]⟩ rfl

/-- Characterization of the UDP ASSOCIATE branch of `serverHandleRequest`:
for any accepted UDP ASSOCIATE request on a TCP carrier, the handler
returns the decoded target, writes `{5, 0, RSV}` followed by the SOCKS
address of the local endpoint, and after the single hold-open read surfaces
`ErrUDPAssociateDone` — except when that read fails with a non-EOF error,
which is returned instead. -/
theorem serverHandleRequest_udpAssociate_branch (st : Stream) (lap : AddrPort)
    (b : List Nat) (enableTCP : Bool) (rsv a0 a1 : Nat) (arest : List Nat)
    (sa : List Nat) (r' : PrefixedReader) (addr : ConnAddr) (nconsumed : Nat)
    (hb : 262 ≤ b.length)
    (hin : st.input = 5 :: 3 :: rsv :: a0 :: a1 :: arest)
    (hparse : AppendFromReader [] ⟨[a0, a1], arest, st.ending⟩ = .ok (sa, r'))
    (hconn : ConnAddrFromSlice sa = .ok (addr, nconsumed)) :
    (serverHandleRequest ⟨st, some lap⟩ b enableTCP true).addr = some addr ∧
    (serverHandleRequest ⟨st, some lap⟩ b enableTCP true).stream.output
        = st.output ++ AppendAddrFromAddrPort [5, 0, rsv] lap ∧
    (serverHandleRequest ⟨st, some lap⟩ b enableTCP true).err
        = (if r'.input = [] ∧ r'.ending = .ioError
           then some (.readFailure .ioError) else some .udpAssociateDone) := by
  have h0 : byteAt (store b 0 [5, 3, rsv, a0, a1]) 0 = 5 := by
    rw [byteAt_store_zero b (by simp)]; rfl
  have h1 : byteAt (store b 0 [5, 3, rsv, a0, a1]) 1 = 3 := by
    rw [byteAt_store_zero b (by simp)]; rfl
  have hsl : sliceB (store b 0 [5, 3, rsv, a0, a1]) 3 2 = [a0, a1] := by
    rw [sliceB_store_zero b (by simp)]; rfl
  have hb2 : store (store b 0 [5, 3, rsv, a0, a1]) 1 [0]
      = store b 0 [5, 0, rsv, a0, a1] := by
    rw [store_store_zero b _ (by simp)]
    congr 1
  have hsl3 : sliceB (store b 0 [5, 0, rsv, a0, a1]) 0 3 = [5, 0, rsv] := by
    rw [sliceB_store_zero b (by simp)]; rfl
  rcases hri : r'.input with _ | ⟨x, xs⟩
  · cases hre : r'.ending <;>
      simp [serverHandleRequest, readFull, readOne, writeOut, hin, Version,
        CmdConnect, CmdUDPAssociate, ReplySucceeded, MaxAddrLen, Nat.not_lt.mpr hb,
        h0, h1, hsl, hb2, hsl3, hparse, hconn, hri, hre]
  · simp [serverHandleRequest, readFull, readOne, writeOut, hin, Version,
      CmdConnect, CmdUDPAssociate, ReplySucceeded, MaxAddrLen, Nat.not_lt.mpr hb,
      h0, h1, hsl, hb2, hsl3, hparse, hconn, hri]

set_option maxRecDepth 40000 in
/-- **C1 (counterexample).** The claim that the udp-associate-done signal is
surfaced "whether the hold-open read returns with success, EOF, or any
other error" is false: on a TCP carrier whose stream ends with a non-EOF
I/O error immediately after an accepted UDP ASSOCIATE request, the handler
returns that read error, not `ErrUDPAssociateDone`. -/
theorem udpAssociate_nonEOF_read_error_counterexample :
    (serverHandleRequest
        ⟨⟨[5, 3, 0, 1, 0, 0, 0, 0, 0, 0], .ioError, []⟩, some ⟨.v4 10 0 0 1, 51820⟩⟩
        (List.replicate 262 0) true true).err = some (.readFailure .ioError) ∧
    some (SocksError.readFailure .ioError) ≠ some SocksError.udpAssociateDone :=
  ⟨by rfl, by simp⟩

/-- **C1 (amended).** For every call of `serverHandleRequest` on a TCP
connection where the command is UDP ASSOCIATE and UDP is enabled: after the
success reply is written the server performs a single blocking one-byte
read; when that read returns with success or EOF the function surfaces the
udp-associate-done signal together with the decoded target address, and
when it returns any other error, that error is surfaced instead (still with
the decoded target address). -/
theorem serverHandleRequest_udpAssociate_done_signal (st : Stream) (lap : AddrPort)
    (b : List Nat) (enableTCP : Bool) (rsv a0 a1 : Nat) (arest : List Nat)
    (sa : List Nat) (r' : PrefixedReader) (addr : ConnAddr) (nconsumed : Nat)
    (hb : 262 ≤ b.length)
    (hin : st.input = 5 :: 3 :: rsv :: a0 :: a1 :: arest)
    (hparse : AppendFromReader [] ⟨[a0, a1], arest, st.ending⟩ = .ok (sa, r'))
    (hconn : ConnAddrFromSlice sa = .ok (addr, nconsumed)) :
    (serverHandleRequest ⟨st, some lap⟩ b enableTCP true).addr = some addr ∧
    (r'.input ≠ [] ∨ r'.ending = .eof →
      (serverHandleRequest ⟨st, some lap⟩ b enableTCP true).err = some .udpAssociateDone) ∧
    (r'.input = [] ∧ r'.ending = .ioError →
      (serverHandleRequest ⟨st, some lap⟩ b enableTCP true).err
          = some (.readFailure .ioError)) := by
  obtain ⟨ha, _, he⟩ := serverHandleRequest_udpAssociate_branch st lap b enableTCP
    rsv a0 a1 arest sa r' addr nconsumed hb hin hparse hconn
  refine ⟨ha, fun hcase => ?_, fun hcase => ?_⟩
  · rw [he, if_neg]
    rcases hcase with hne | heof
    · exact fun hc => hne hc.1
    · rw [heof]; rintro ⟨-, h⟩; cases h
  · rw [he, if_pos hcase]

set_option maxRecDepth 40000 in
/-- Witness for C1 at a concrete accepted UDP ASSOCIATE request whose
stream has one more byte for the hold-open read. -/
theorem serverHandleRequest_udpAssociate_done_signal_witness :
    (serverHandleRequest
        ⟨⟨[5, 3, 0, 1, 0, 0, 0, 0, 0, 0, 42], .eof, []⟩, some ⟨.v4 10 0 0 1, 51820⟩⟩
        (List.replicate 262 0) true true).addr = some (.ip ⟨.v4 0 0 0 0, 0⟩) ∧
    (serverHandleRequest
        ⟨⟨[5, 3, 0, 1, 0, 0, 0, 0, 0, 0, 42], .eof, []⟩, some ⟨.v4 10 0 0 1, 51820⟩⟩
        (List.replicate 262 0) true true).err = some .udpAssociateDone := by
  obtain ⟨ha, hd, -⟩ := serverHandleRequest_udpAssociate_done_signal
    ⟨[5, 3, 0, 1, 0, 0, 0, 0, 0, 0, 42], .eof, []⟩ ⟨.v4 10 0 0 1, 51820⟩
    (List.replicate 262 0) true 0 1 0 [0, 0, 0, 0, 0, 42]
    [1, 0, 0, 0, 0, 0, 0] ⟨[], [42], .eof⟩ (.ip ⟨.v4 0 0 0 0, 0⟩) 7
    (by simp) rfl (by rfl) (by rfl)
  exact ⟨ha, hd (Or.inl (by simp))⟩

set_option maxRecDepth 40000 in
/-- **C3 (counterexample).** For the spec's UDP ASSOCIATE scenario (local
TCP endpoint `10.0.0.1:51820`), the success reply actually written ends in
port bytes `CA 6C` (51820 big-endian), not the ten bytes ending `CA 7C`
claimed by the spec (those would encode port 51836). -/
theorem udpAssociate_reply_bytes_counterexample :
    (serverHandleRequest
        ⟨⟨[5, 3, 0, 1, 0, 0, 0, 0, 0, 0], .eof, []⟩, some ⟨.v4 10 0 0 1, 51820⟩⟩
        (List.replicate 262 0) true true).stream.output
        = [0x05, 0x00, 0x00, 0x01, 0x0A, 0x00, 0x00, 0x01, 0xCA, 0x6C] ∧
    ([0x05, 0x00, 0x00, 0x01, 0x0A, 0x00, 0x00, 0x01, 0xCA, 0x6C] : List Nat)
        ≠ [0x05, 0x00, 0x00, 0x01, 0x0A, 0x00, 0x00, 0x01, 0xCA, 0x7C] :=
  ⟨by rfl, by simp⟩

/-- **C3 (amended).** When `serverHandleRequest` accepts a UDP ASSOCIATE
request with RSV byte 0 on a TCP connection whose local endpoint is
`10.0.0.1:51820`, the success reply it writes is exactly the ten bytes
`05 00 00 01 0A 00 00 01 CA 6C`. -/
theorem udpAssociate_reply_bytes_local_endpoint (st : Stream) (b : List Nat)
    (enableTCP : Bool) (a0 a1 : Nat) (arest : List Nat)
    (sa : List Nat) (r' : PrefixedReader) (addr : ConnAddr) (nconsumed : Nat)
    (hb : 262 ≤ b.length)
    (hin : st.input = 5 :: 3 :: 0 :: a0 :: a1 :: arest)
    (hparse : AppendFromReader [] ⟨[a0, a1], arest, st.ending⟩ = .ok (sa, r'))
    (hconn : ConnAddrFromSlice sa = .ok (addr, nconsumed)) :
    (serverHandleRequest ⟨st, some ⟨.v4 10 0 0 1, 51820⟩⟩ b enableTCP true).stream.output
        = st.output ++ [0x05, 0x00, 0x00, 0x01, 0x0A, 0x00, 0x00, 0x01, 0xCA, 0x6C] := by
  obtain ⟨-, ho, -⟩ := serverHandleRequest_udpAssociate_branch st ⟨.v4 10 0 0 1, 51820⟩
    b enableTCP 0 a0 a1 arest sa r' addr nconsumed hb hin hparse hconn
  exact ho

set_option maxRecDepth 40000 in
/-- Witness for the amended C3 at the concrete scenario request. -/
theorem udpAssociate_reply_bytes_local_endpoint_witness :
    (serverHandleRequest
        ⟨⟨[5, 3, 0, 1, 0, 0, 0, 0, 0, 0], .eof, []⟩, some ⟨.v4 10 0 0 1, 51820⟩⟩
        (List.replicate 262 0) true true).stream.output
        = [] ++ [0x05, 0x00, 0x00, 0x01, 0x0A, 0x00, 0x00, 0x01, 0xCA, 0x6C] :=
  udpAssociate_reply_bytes_local_endpoint
    ⟨[5, 3, 0, 1, 0, 0, 0, 0, 0, 0], .eof, []⟩ (List.replicate 262 0) true 1 0
    [0, 0, 0, 0, 0] [1, 0, 0, 0, 0, 0, 0] ⟨[], [], .eof⟩ (.ip ⟨.v4 0 0 0 0, 0⟩) 7
    (by simp) rfl (by rfl) (by rfl)

/-- Characterization of `serverHandleUsernamePassword` on a well-formed
authentication message `{1, ULEN, UNAME, PLEN, PASSWD}`: the handler
consumes exactly the message, writes `{1, STATUS}` with STATUS computed
from the credentials lookup and exact password comparison, and returns the
table entry's username on success or `ErrIncorrectUsernamePassword`
otherwise. -/
theorem serverHandleUsernamePassword_spec (st : Stream) (b : List Nat)
    (tbl : List (List Nat × UserInfo)) (uname passwd rest : List Nat)
    (hb : 258 ≤ b.length)
    (hu1 : 1 ≤ uname.length) (hu255 : uname.length ≤ 255)
    (hp1 : 1 ≤ passwd.length) (hp255 : passwd.length ≤ 255)
    (hin : st.input = 1 :: uname.length :: (uname ++ passwd.length :: (passwd ++ rest))) :
    (serverHandleUsernamePassword st b tbl).stream.output
        = st.output ++ [1, match lookupUser tbl uname with
            | none => 1
            | some ui => if passwd ≠ ui.password then 1 else 0] ∧
    (serverHandleUsernamePassword st b tbl).result
        = (if (match lookupUser tbl uname with
            | none => 1
            | some ui => if passwd ≠ ui.password then 1 else 0) = 0
           then .ok (((lookupUser tbl uname).getD ⟨[], []⟩).username)
           else .error .incorrectUsernamePassword) ∧
    (serverHandleUsernamePassword st b tbl).stream.input = rest := by
  rcases uname with _ | ⟨u0, _ | ⟨u1, utail⟩⟩
  · simp at hu1
  · -- ULEN = 1
    simp only [List.length_cons, List.length_nil, List.cons_append, List.nil_append,
      Nat.zero_add] at hin
    have h0 : byteAt (store b 0 [1, 1, u0, passwd.length]) 0 = 1 := by
      rw [byteAt_store_zero b (by simp)]; rfl
    have h1 : byteAt (store b 0 [1, 1, u0, passwd.length]) 1 = 1 := by
      rw [byteAt_store_zero b (by simp)]; rfl
    have hsl : sliceB (store b 0 [1, 1, u0, passwd.length]) 2 1 = [u0] := by
      rw [sliceB_store_zero b (by simp)]; rfl
    have hplen : byteAt (store b 0 [1, 1, u0, passwd.length]) 3 = passwd.length := by
      rw [byteAt_store_zero b (by simp)]; rfl
    have hp0 : (passwd.length = 0) = False := eq_false (by omega)
    have hcond : (passwd.length ≤ (passwd ++ rest).length) = True :=
      eq_true (by simp only [List.length_append]; omega)
    have htkp : (passwd ++ rest).take passwd.length = passwd := List.take_left _ _
    have hdrp : (passwd ++ rest).drop passwd.length = rest := List.drop_left _ _
    have hst2 : store (store b 0 [1, 1, u0, passwd.length]) 2 passwd
        = store b 0 (1 :: 1 ::
            (passwd ++ List.drop (2 + passwd.length) [1, 1, u0, passwd.length])) := by
      rw [store_store_zero b _ (by simp)]
      congr 1
    have hslp : sliceB (store b 0 (1 :: 1 ::
          (passwd ++ List.drop (2 + passwd.length) [1, 1, u0, passwd.length])))
          2 passwd.length = passwd := by
      rw [sliceB_store_zero b (by simp only [List.length_cons, List.length_append]; omega)]
      simp [sliceB, List.take_left]
    have hst4 : ∀ (s : Nat) (tl : List Nat),
        store (store b 0 (1 :: 1 :: tl)) 1 [s] = store b 0 (1 :: s :: tl) := by
      intro s tl
      rw [store_store_zero b _ (by simp)]
      congr 1
    have hout : ∀ (s : Nat) (tl : List Nat),
        sliceB (store b 0 (1 :: s :: tl)) 0 2 = [1, s] := by
      intro s tl
      rw [sliceB_store_zero b (by simp)]
      rfl
    simp [serverHandleUsernamePassword, readFull, writeOut, hin,
      UsernamePasswordAuthVersion, Nat.not_lt.mpr hb,
      h0, h1, hsl, hplen, hp0, hcond, htkp, hdrp, hst2, hslp, hst4, hout, apply_ite]
  · -- ULEN ≥ 2
    have hin2 : st.input = 1 :: (utail.length + 2)
        :: u0 :: u1 :: (utail ++ passwd.length :: (passwd ++ rest)) := by
      simpa using hin
    set ul := utail.length + 2 with hul
    set pl := passwd.length with hpl
    have h0 : byteAt (store b 0 [1, ul, u0, u1]) 0 = 1 := by
      rw [byteAt_store_zero b (by simp)]; rfl
    have h1 : byteAt (store b 0 [1, ul, u0, u1]) 1 = ul := by
      rw [byteAt_store_zero b (by simp)]; rfl
    have hul0 : (ul = 0) = False := eq_false (by omega)
    have hul1 : (1 < ul) = True := eq_true (by omega)
    have hulm1 : ul - 1 = utail.length + 1 := by omega
    have hcondu : (utail.length + 1 ≤ (utail ++ pl :: (passwd ++ rest)).length) = True :=
      eq_true (by simp only [List.length_append, List.length_cons]; omega)
    have htku : (utail ++ pl :: (passwd ++ rest)).take (utail.length + 1)
        = utail ++ [pl] := by
      rw [List.take_append_eq_append_take, List.take_of_length_le (by omega)]
      simp
    have hdru : (utail ++ pl :: (passwd ++ rest)).drop (utail.length + 1)
        = passwd ++ rest := by
      rw [List.drop_append_eq_append_drop, List.drop_eq_nil_of_le (by omega)]
      simp
    have hb2 : store (store b 0 [1, ul, u0, u1]) 4 (utail ++ [pl])
        = store b 0 (1 :: ul :: u0 :: u1 :: (utail ++ [pl])) := by
      rw [store_store_zero b _ (by simp)]
      congr 1
      unfold store
      rw [List.drop_eq_nil_of_le (by simp)]
      simp
    have hsl : sliceB (store b 0 (1 :: ul :: u0 :: u1 :: (utail ++ [pl]))) 2 ul
        = u0 :: u1 :: utail := by
      rw [sliceB_store_zero b (by simp [hul]; omega)]
      simp [sliceB, hul, List.take_left]
    have hshape : (1 :: ul :: u0 :: u1 :: (utail ++ [pl]))
        = (1 :: ul :: u0 :: u1 :: utail) ++ [pl] := by simp
    have hplen : byteAt (store b 0 (1 :: ul :: u0 :: u1 :: (utail ++ [pl]))) (2 + ul)
        = pl := by
      rw [byteAt_store_zero b (by simp [hul]; omega)]
      have hidx : 2 + ul = (1 :: ul :: u0 :: u1 :: utail).length := by simp [hul]; omega
      rw [hshape, hidx, byteAt_append_cons]
    have hp0 : (pl = 0) = False := eq_false (by omega)
    have hcondp : (pl ≤ (passwd ++ rest).length) = True :=
      eq_true (by simp only [List.length_append]; omega)
    have htkp : (passwd ++ rest).take pl = passwd := List.take_left _ _
    have hdrp : (passwd ++ rest).drop pl = rest := List.drop_left _ _
    have hst2 : store (store b 0 (1 :: ul :: u0 :: u1 :: (utail ++ [pl]))) 2 passwd
        = store b 0 (1 :: ul :: (passwd
            ++ List.drop (2 + pl) (1 :: ul :: u0 :: u1 :: (utail ++ [pl])))) := by
      rw [store_store_zero b _ (by simp)]
      congr 1
    have hslp : ∀ tl : List Nat,
        sliceB (store b 0 (1 :: ul :: (passwd ++ tl))) 2 pl = passwd := by
      intro tl
      rw [sliceB_store_zero b (by simp only [List.length_cons, List.length_append]; omega)]
      simp [sliceB, List.take_left]
    have hst4 : ∀ (s c : Nat) (tl : List Nat),
        store (store b 0 (1 :: c :: tl)) 1 [s] = store b 0 (1 :: s :: tl) := by
      intro s c tl
      rw [store_store_zero b _ (by simp)]
      congr 1
    have hout : ∀ (s : Nat) (tl : List Nat),
        sliceB (store b 0 (1 :: s :: tl)) 0 2 = [1, s] := by
      intro s tl
      rw [sliceB_store_zero b (by simp)]
      rfl
    simp [serverHandleUsernamePassword, readFull, writeOut, hin2,
      UsernamePasswordAuthVersion, Nat.not_lt.mpr hb,
      h0, h1, hul0, hul1, hulm1, hcondu, htku, hdru, hb2, hsl, hplen, hp0,
      hcondp, htkp, hdrp, hst2, hslp, hst4, hout, apply_ite]

/-- **C4.** For every username/password authentication message received by
`serverHandleUsernamePassword` (with valid version and non-zero ULEN and
PLEN), the server writes the two-byte response `{1, STATUS}` where
STATUS = 0 if and only if the received username is a key of the credentials
table and the received password octets equal that entry's password exactly;
and when STATUS is non-zero, the `{1, 1}` response is on the stream when the
incorrect-credentials failure is returned. -/
theorem usernamePassword_status_response (st : Stream) (b : List Nat)
    (tbl : List (List Nat × UserInfo)) (uname passwd rest : List Nat)
    (hb : 258 ≤ b.length)
    (hu1 : 1 ≤ uname.length) (hu255 : uname.length ≤ 255)
    (hp1 : 1 ≤ passwd.length) (hp255 : passwd.length ≤ 255)
    (hin : st.input = 1 :: uname.length :: (uname ++ passwd.length :: (passwd ++ rest))) :
    ∃ status : Nat,
      (serverHandleUsernamePassword st b tbl).stream.output = st.output ++ [1, status] ∧
      (status = 0 ↔ ∃ ui, lookupUser tbl uname = some ui ∧ passwd = ui.password) ∧
      (status ≠ 0 →
        (serverHandleUsernamePassword st b tbl).stream.output = st.output ++ [1, 1] ∧
        (serverHandleUsernamePassword st b tbl).result
            = .error .incorrectUsernamePassword) := by
  obtain ⟨ho, hr, -⟩ := serverHandleUsernamePassword_spec st b tbl uname passwd rest
    hb hu1 hu255 hp1 hp255 hin
  refine ⟨_, ho, ?_, ?_⟩
  · rcases hl : lookupUser tbl uname with - | ui
    · simp [hl]
    · by_cases hpw : passwd = ui.password <;> simp [hl, hpw]
  · intro hs
    rcases hl : lookupUser tbl uname with - | ui
    · constructor
      · rw [ho, hl]
      · rw [hr, hl]
        simp
    · rw [hl] at hs
      by_cases hpw : passwd = ui.password
      · simp [hpw] at hs
      · constructor
        · rw [ho, hl]
          simp [hpw]
        · rw [hr, hl]
          simp [hpw]

set_option maxRecDepth 10000 in
/-- Witness for C4 at the spec's concrete scenario (`user`/`pass` with a
wrong password supplied). -/
theorem usernamePassword_status_response_witness :
    ∃ status : Nat,
      (serverHandleUsernamePassword
          ⟨1 :: 4 :: ([117, 115, 101, 114] ++ 4 :: ([1, 2, 3, 4] ++ [])), .eof, []⟩
          (List.replicate 258 0)
          [([117, 115, 101, 114], ⟨[117, 115, 101, 114], [112, 97, 115, 115]⟩)]).stream.output
          = [] ++ [1, status] ∧
      (status = 0 ↔ ∃ ui,
        lookupUser [([117, 115, 101, 114], ⟨[117, 115, 101, 114], [112, 97, 115, 115]⟩)]
            [117, 115, 101, 114] = some ui ∧ [1, 2, 3, 4] = ui.password) ∧
      (status ≠ 0 →
        (serverHandleUsernamePassword
            ⟨1 :: 4 :: ([117, 115, 101, 114] ++ 4 :: ([1, 2, 3, 4] ++ [])), .eof, []⟩
            (List.replicate 258 0)
            [([117, 115, 101, 114], ⟨[117, 115, 101, 114], [112, 97, 115, 115]⟩)]).stream.output
            = [] ++ [1, 1] ∧
        (serverHandleUsernamePassword
            ⟨1 :: 4 :: ([117, 115, 101, 114] ++ 4 :: ([1, 2, 3, 4] ++ [])), .eof, []⟩
            (List.replicate 258 0)
            [([117, 115, 101, 114], ⟨[117, 115, 101, 114], [112, 97, 115, 115]⟩)]).result
            = .error .incorrectUsernamePassword) :=
  usernamePassword_status_response
    ⟨1 :: 4 :: ([117, 115, 101, 114] ++ 4 :: ([1, 2, 3, 4] ++ [])), .eof, []⟩
    (List.replicate 258 0)
    [([117, 115, 101, 114], ⟨[117, 115, 101, 114], [112, 97, 115, 115]⟩)]
    [117, 115, 101, 114] [1, 2, 3, 4] []
    (by simp) (by simp) (by simp) (by simp) (by simp) rfl

/-- **C5.** For every `UserInfo` `{u, p}` with `1 ≤ |u| ≤ 255` and
`1 ≤ |p| ≤ 255`, feeding the bytes produced by `AppendAuthMsg` (appended to
an empty buffer) to `serverHandleUsernamePassword` with a credentials table
mapping `u` to `{u, p}` succeeds with STATUS = 0 and recovers the identical
username and password octets: the handler returns the entry's username,
which equals `u`. -/
theorem appendAuthMsg_server_roundtrip (st : Stream) (b : List Nat) (u : UserInfo)
    (tbl : List (List Nat × UserInfo)) (rest : List Nat)
    (hb : 258 ≤ b.length)
    (hu1 : 1 ≤ u.username.length) (hu255 : u.username.length ≤ 255)
    (hp1 : 1 ≤ u.password.length) (hp255 : u.password.length ≤ 255)
    (htbl : lookupUser tbl u.username = some u)
    (hin : st.input = AppendAuthMsg u [] ++ rest) :
    (serverHandleUsernamePassword st b tbl).result = .ok u.username ∧
    (serverHandleUsernamePassword st b tbl).stream.output = st.output ++ [1, 0] := by
  have hin2 : st.input
      = 1 :: u.username.length :: (u.username ++ u.password.length :: (u.password ++ rest)) := by
    rw [hin]
    simp [AppendAuthMsg, UsernamePasswordAuthVersion,
      Nat.mod_eq_of_lt (show u.username.length < 256 by omega),
      Nat.mod_eq_of_lt (show u.password.length < 256 by omega)]
  obtain ⟨ho, hr, -⟩ := serverHandleUsernamePassword_spec st b tbl u.username u.password
    rest hb hu1 hu255 hp1 hp255 hin2
  rw [htbl] at ho hr
  simp at ho hr
  exact ⟨hr, ho⟩

set_option maxRecDepth 10000 in
/-- Witness for C5 at the spec's concrete scenario `user`/`pass`. -/
theorem appendAuthMsg_server_roundtrip_witness :
    (serverHandleUsernamePassword
        ⟨AppendAuthMsg ⟨[117, 115, 101, 114], [112, 97, 115, 115]⟩ [] ++ [], .eof, []⟩
        (List.replicate 258 0)
        [([117, 115, 101, 114], ⟨[117, 115, 101, 114], [112, 97, 115, 115]⟩)]).result
        = .ok [117, 115, 101, 114] ∧
    (serverHandleUsernamePassword
        ⟨AppendAuthMsg ⟨[117, 115, 101, 114], [112, 97, 115, 115]⟩ [] ++ [], .eof, []⟩
        (List.replicate 258 0)
        [([117, 115, 101, 114], ⟨[117, 115, 101, 114], [112, 97, 115, 115]⟩)]).stream.output
        = [] ++ [1, 0] :=
  appendAuthMsg_server_roundtrip
    ⟨AppendAuthMsg ⟨[117, 115, 101, 114], [112, 97, 115, 115]⟩ [] ++ [], .eof, []⟩
    (List.replicate 258 0) ⟨[117, 115, 101, 114], [112, 97, 115, 115]⟩
    [([117, 115, 101, 114], ⟨[117, 115, 101, 114], [112, 97, 115, 115]⟩)] []
    (by simp) (by simp) (by simp) (by simp) (by simp) (by simp [lookupUser]) rfl

/-! ## The session-table ownership invariant

Every entry of the session table is owned by the session goroutine that was
spawned with it, and that goroutine has not yet run its deferred teardown
(which is the unique point where the entry is deleted). -/

/-- Every `(csid, gid)` entry of the table points at a live (not yet
torn-down) session goroutine with that client session ID. -/
def TableOwned (st : RelayRun) : Prop :=
  ∀ p ∈ st.table, ∃ gs, st.sessions[p.2]? = some gs ∧
    gs.csid = p.1 ∧ gs.phase ≠ GPhase.exited

theorem tableOwned_init : TableOwned relayInit := by
  intro p hp
  simp [relayInit] at hp

theorem tableOwned_setPhase {st : RelayRun} {g : Nat} {ph : GPhase} {gs0 : GoSt}
    (hg : st.sessions[g]? = some gs0) (hph : ph ≠ GPhase.exited)
    (hInv : TableOwned st) :
    ∀ p ∈ st.table, ∃ gs, (setPhase st.sessions g ph)[p.2]? = some gs ∧
      gs.csid = p.1 ∧ gs.phase ≠ GPhase.exited := by
  intro p hp
  obtain ⟨gs, hget, hcs, hex⟩ := hInv p hp
  by_cases hpg : p.2 = g
  · subst hpg
    refine ⟨{ gs with phase := ph }, ?_, hcs, hph⟩
    rw [setPhase, List.getElem?_modify]
    simp [hget]
  · refine ⟨gs, ?_, hcs, hex⟩
    rw [setPhase, List.getElem?_modify_ne _ _ (Ne.symm hpg)]
    exact hget

/-- One step of the relay transition system preserves table ownership. -/
theorem tableOwned_step {a : RAct} {st st' : RelayRun}
    (h : stepR a st = some st') (hInv : TableOwned st) : TableOwned st' := by
  cases a with
  | spawn csid =>
    simp only [stepR] at h
    split at h
    · cases h
      intro p hp
      rcases List.mem_append.mp hp with hold | hnew
      · obtain ⟨gs, hget, hcs, hex⟩ := hInv p hold
        refine ⟨gs, ?_, hcs, hex⟩
        have hlt : p.2 < st.sessions.length := by
          by_contra hge
          rw [List.getElem?_eq_none_iff.mpr (le_of_not_lt hge)] at hget
          cases hget
        rw [List.getElem?_append_left hlt]
        exact hget
      · rcases List.mem_singleton.mp hnew with rfl
        exact ⟨⟨csid, .preRouter⟩, List.getElem?_concat_length _ _, rfl, by simp⟩
    · cases h
  | routerOk gid =>
    cases hg : st.sessions[gid]? with
    | none => simp [stepR, hg] at h
    | some gs0 =>
      by_cases hph : gs0.phase = GPhase.preRouter
      · simp only [stepR, hg] at h
        rw [if_pos hph] at h
        cases h
        exact tableOwned_setPhase hg (by simp) hInv
      · simp only [stepR, hg] at h
        rw [if_neg hph] at h
        cases h
  | routerFail gid =>
    cases hg : st.sessions[gid]? with
    | none => simp [stepR, hg] at h
    | some gs0 =>
      by_cases hph : gs0.phase = GPhase.preRouter
      · simp only [stepR, hg] at h
        rw [if_pos hph] at h
        cases h
        exact tableOwned_setPhase hg (by simp) hInv
      · simp only [stepR, hg] at h
        rw [if_neg hph] at h
        cases h
  | workerDone gid =>
    cases hg : st.sessions[gid]? with
    | none => simp [stepR, hg] at h
    | some gs0 =>
      by_cases hph : gs0.phase = GPhase.tracked
      · simp only [stepR, hg] at h
        rw [if_pos hph] at h
        cases h
        exact tableOwned_setPhase hg (by simp) hInv
      · simp only [stepR, hg] at h
        rw [if_neg hph] at h
        cases h
  | teardown gid =>
    cases hg : st.sessions[gid]? with
    | none => simp [stepR, hg] at h
    | some gs0 =>
      by_cases hph : gs0.phase = GPhase.donePending ∨ gs0.phase = GPhase.failedPending
      · simp only [stepR, hg] at h
        rw [if_pos hph] at h
        cases h
        intro p hp
        rw [tableDelete] at hp
        have hmem := List.mem_filter.mp hp
        have hne : p.1 ≠ gs0.csid := by simpa using hmem.2
        obtain ⟨gs, hget, hcs, hex⟩ := hInv p hmem.1
        by_cases hpg : p.2 = gid
        · subst hpg
          rw [hget] at hg
          cases hg
          exact absurd hcs.symm hne
        · refine ⟨gs, ?_, hcs, hex⟩
          rw [setPhase, List.getElem?_modify_ne _ _ (Ne.symm hpg)]
          exact hget
      · simp only [stepR, hg] at h
        rw [if_neg hph] at h
        cases h
  | ingressExit =>
    simp only [stepR] at h
    split at h
    · cases h; exact hInv
    · cases h
  | stopDeadline =>
    simp only [stepR] at h
    split at h
    · cases h; exact hInv
    · cases h
  | stopWaitIngress =>
    simp only [stepR] at h
    split at h
    · cases h; exact hInv
    · cases h
  | stopSwap =>
    simp only [stepR] at h
    split at h
    · cases h; exact hInv
    · cases h
  | stopWaitWorkers =>
    simp only [stepR] at h
    split at h
    · cases h; exact hInv
    · cases h
  | stopReturn =>
    simp only [stepR] at h
    split at h
    · cases h; exact hInv
    · cases h

/-- Table ownership holds in every state reachable by a run. -/
theorem tableOwned_runRelay {acts : List RAct} {st st' : RelayRun}
    (hrun : runRelay acts st = some st') (hInv : TableOwned st) : TableOwned st' := by
  induction acts generalizing st with
  | nil =>
    simp only [runRelay] at hrun
    cases hrun
    exact hInv
  | cons a rest ih =>
    simp only [runRelay] at hrun
    cases hs : stepR a st with
    | none => rw [hs] at hrun; cases hrun
    | some st1 =>
      rw [hs] at hrun
      exact ih hrun (tableOwned_step hs hInv)

/-- **C2 (counterexample).** `Stop` can return while the session table still
has an entry: a session's relay workers finish (its deferred `s.wg.Done()`
runs before the deferred teardown, because the teardown `defer` was
registered first), then `Stop` runs to completion in the gap before the
teardown deletes the table entry.  The trace below is a valid run ending
with `Stop` returned and `(0, 0)` still in the table. -/
theorem stop_returns_with_nonempty_table_counterexample :
    runRelay [.spawn 0, .routerOk 0, .workerDone 0, .stopDeadline, .ingressExit,
        .stopWaitIngress, .stopSwap, .stopWaitWorkers, .stopReturn] relayInit
      = some ⟨false, [⟨0, .donePending⟩], [(0, 0)], .returned⟩ ∧
    ([(0, 0)] : List (Nat × Nat)) ≠ [] := by
  constructor
  · rfl
  · simp

/-- **C2 (amended).** For every run of the relay, once `Stop` has returned
and every spawned session goroutine has also completed its deferred
teardown, the session table contains no entries.  (`Stop`'s return alone
does not imply emptiness: the waitgroup `Done` of a session runs before its
deferred teardown, and a session goroutine whose router call fails is never
tracked by the waitgroup, so entries can outlive `Stop`.) -/
theorem stop_and_teardowns_leave_empty_table (acts : List RAct) (st : RelayRun)
    (hrun : runRelay acts relayInit = some st)
    (hstop : st.stop = .returned)
    (hdone : ∀ gs ∈ st.sessions, gs.phase = GPhase.exited) :
    st.table = [] := by
  have hInv := tableOwned_runRelay hrun tableOwned_init
  rcases hT : st.table with - | ⟨p, ps⟩
  · rfl
  · exfalso
    have hp : p ∈ st.table := by rw [hT]; exact List.mem_cons_self _ _
    obtain ⟨gs, hget, -, hex⟩ := hInv p hp
    exact hex (hdone gs (List.getElem?_mem hget))

/-- Witness for the amended C2 at a concrete complete run. -/
theorem stop_and_teardowns_leave_empty_table_witness :
    (⟨false, [⟨0, .exited⟩], [], .returned⟩ : RelayRun).table = [] :=
  stop_and_teardowns_leave_empty_table
    [.spawn 0, .routerOk 0, .workerDone 0, .teardown 0, .stopDeadline, .ingressExit,
      .stopWaitIngress, .stopSwap, .stopWaitWorkers, .stopReturn]
    ⟨false, [⟨0, .exited⟩], [], .returned⟩
    (by rfl) rfl (by simp)

end Shadowsocks
